import Mathlib

/-!
Verification of the retrieval-and-answering engine of the mintlify-mcp
repository: a shallow embedding, in Lean, of the Knowledge Retriever
(score filtering, per-source deduplication, metadata cleaning), the
Knowledge Store search with its vector-only fallback, the searchKnowledge
tool, the bounded agent loop, and the backend registry loader, together
with theorems settling the specification's claims about them.

Conventions of the embedding:
- JavaScript metadata objects (parsed from JSON) become association lists
  from `String` keys to `MVal` values; a non-string JSON value is kept
  abstract as `MVal.other truthy id`, recording only its JS truthiness and
  an identity tag so distinct values stay distinct.
- `number` scores become `ℚ`; `undefined` becomes `Option.none`.
- Asynchronous calls into external services (LanceDB, the embedding
  provider, the language model) are modelled by explicit inputs: the ranked
  row lists a query would produce, an `Except` value for a path that can
  throw, or a function giving the model's action at each step.
-/

/-- A JSON metadata value as JavaScript sees it: either a string, or some
other value of which only the JS truthiness and an identity tag matter to
the code under verification. -/
inductive MVal where
  | str (s : String)
  | other (truthy : Bool) (id : Nat)
deriving DecidableEq, Repr

/-- JavaScript truthiness of a metadata value: a string is truthy unless
empty; any other value carries its truthiness. -/
def MVal.isTruthy : MVal → Bool
  | MVal.str s => !(s == "")
  | MVal.other t _ => t

/-- `DocumentMetadata` of knowledge.ts: a parsed JSON object, as the
association list of its entries in insertion order. -/
abbrev Metadata := List (String × MVal)

/-- `SearchResult` of knowledge.ts: `{name, content, metadata, score?}`. -/
structure SearchResult where
  name : String
  content : String
  metadata : Metadata
  score : Option ℚ
deriving DecidableEq, Repr

/-- The metadata shape of `CleanedResult` in retriever.ts: only
`source_url?` and `title?`, both strings when present. -/
structure CleanedMetadata where
  source_url : Option String := none
  title : Option String := none
deriving DecidableEq, Repr

/-- `CleanedResult` of retriever.ts: `{name, content, metadata}`. -/
structure CleanedResult where
  name : String
  content : String
  metadata : CleanedMetadata
deriving DecidableEq, Repr

/-- `SEARCH_CONFIG` of config.ts: the tunable constants, each overridable
through an environment variable, so the embedding keeps them as fields. -/
structure SearchConfig where
  MIN_SCORE : ℚ
  MAX_CHUNKS_PER_URL : Nat
  DEFAULT_NUM_DOCS : Nat
  RETRIEVAL_MULTIPLIER : Nat
  MAX_STEPS : Nat
deriving DecidableEq, Repr

/-- The default `SEARCH_CONFIG` values of config.ts: MIN_SCORE 0.015,
MAX_CHUNKS_PER_URL 2, DEFAULT_NUM_DOCS 10, RETRIEVAL_MULTIPLIER 2,
MAX_STEPS 3. -/
def SEARCH_CONFIG : SearchConfig :=
  { MIN_SCORE := mkRat 3 200
    MAX_CHUNKS_PER_URL := 2
    DEFAULT_NUM_DOCS := 10
    RETRIEVAL_MULTIPLIER := 2
    MAX_STEPS := 3 }

namespace KnowledgeRetriever

/-- `KnowledgeRetriever.cleanMetadata` of retriever.ts, one loop step per
metadata entry: skip the internal fields chunk, chunk_size and path, keep
source_url and title when their value is a string (a later entry
overwrites an earlier one, as assignment does). -/
def cleanMetadataGo (acc : CleanedMetadata) : Metadata → CleanedMetadata
  | [] => acc
  | (k, v) :: rest =>
    if k = "chunk" ∨ k = "chunk_size" ∨ k = "path" then
      cleanMetadataGo acc rest
    else if k = "source_url" then
      match v with
      | MVal.str s => cleanMetadataGo { acc with source_url := some s } rest
      | MVal.other _ _ => cleanMetadataGo acc rest
    else if k = "title" then
      match v with
      | MVal.str s => cleanMetadataGo { acc with title := some s } rest
      | MVal.other _ _ => cleanMetadataGo acc rest
    else cleanMetadataGo acc rest

/-- `KnowledgeRetriever.cleanMetadata` of retriever.ts. -/
def cleanMetadata (m : Metadata) : CleanedMetadata :=
  cleanMetadataGo {} m

/-- The deduplication key of retriever.ts line 139:
`result.metadata?.source_url || result.name` — the source_url value when
present and truthy, else the document name. -/
def sourceKeyOf (name : String) (m : Metadata) : MVal :=
  match m.lookup "source_url" with
  | some v => if v.isTruthy then v else MVal.str name
  | none => MVal.str name

/-- The loop of `KnowledgeRetriever.deduplicateAndClean` of retriever.ts:
stop once `numDocuments` results are collected; skip a result whose key
already has `MAX_CHUNKS_PER_URL` accepted chunks; otherwise bump the key's
count in `seenUrls` (modelled as a function) and emit the cleaned result. -/
def dedupGo (cfg : SearchConfig) (numDocuments : Nat) :
    List SearchResult → (MVal → Nat) → Nat → List CleanedResult
  | [], _, _ => []
  | r :: rs, seen, accLen =>
    if numDocuments ≤ accLen then []
    else
      let key := sourceKeyOf r.name r.metadata
      let count := seen key
      if cfg.MAX_CHUNKS_PER_URL ≤ count then
        dedupGo cfg numDocuments rs seen accLen
      else
        { name := r.name, content := r.content, metadata := cleanMetadata r.metadata } ::
          dedupGo cfg numDocuments rs
            (fun k => if k = key then count + 1 else seen k) (accLen + 1)

/-- `KnowledgeRetriever.deduplicateAndClean` of retriever.ts. -/
def deduplicateAndClean (cfg : SearchConfig) (results : List SearchResult)
    (numDocuments : Nat) : List CleanedResult :=
  dedupGo cfg numDocuments results (fun _ => 0) 0

/-- `KnowledgeRetriever.filterByScore` of retriever.ts: when no result
carries a score, skip filtering; otherwise keep the results whose score is
undefined or at least `MIN_SCORE`. -/
def filterByScore (cfg : SearchConfig) (results : List SearchResult) :
    List SearchResult :=
  let hasScores := results.any (fun r => r.score.isSome)
  if !hasScores then results
  else
    results.filter (fun r =>
      match r.score with
      | none => true
      | some s => decide (cfg.MIN_SCORE ≤ s))

/-- `KnowledgeRetriever.retrieve` of retriever.ts. The store call
`this.knowledge.search(query, numDocuments * RETRIEVAL_MULTIPLIER)` is
modelled by `searchFn`, the function from the requested limit to the raw
hits the store returns for the fixed query. -/
def retrieve (cfg : SearchConfig) (searchFn : Nat → List SearchResult)
    (numDocuments : Nat) : Option (List CleanedResult) :=
  let results := searchFn (numDocuments * cfg.RETRIEVAL_MULTIPLIER)
  if results.length = 0 then none
  else
    let filtered := filterByScore cfg results
    if filtered.length = 0 then
      some (deduplicateAndClean cfg (results.take numDocuments) numDocuments)
    else
      some (deduplicateAndClean cfg filtered numDocuments)

end KnowledgeRetriever

/-- The source key of a cleaned result, as the spec words it for the
deduplication invariant: the cleaned `source_url` when present and truthy
(JS `||`), else the document name. -/
def CleanedResult.sourceKey (o : CleanedResult) : String :=
  match o.metadata.source_url with
  | some s => if s = "" then o.name else s
  | none => o.name

/-- Whether the `source_url` entry of a metadata object, if any, holds a
string (as `DocumentMetadata` declares with `source_url?: string`). -/
def srcUrlOk (m : Metadata) : Bool :=
  match m.lookup "source_url" with
  | some (MVal.str _) => true
  | some (MVal.other _ _) => false
  | none => true

/-- A raw search result is well-typed for deduplication when its metadata
keys are unique (as keys of one JSON object are) and its `source_url`
entry, if any, is a string. -/
def goodResult (r : SearchResult) : Prop :=
  (r.metadata.map Prod.fst).Nodup ∧ srcUrlOk r.metadata = true

instance (r : SearchResult) : Decidable (goodResult r) := by
  unfold goodResult
  infer_instance

/-- A row as the LanceDB table returns it to knowledge.ts: the stored
columns (the metadata already run through `parseMetadata`) plus the
score column of the search mode that produced the row —
`_relevance_score` on the hybrid path, `_distance` on the vector path,
either possibly undefined. -/
structure LanceRow where
  name : String
  content : String
  metadataParsed : Metadata
  relevance_score : Option ℚ
  distance : Option ℚ
deriving DecidableEq, Repr

/-- The observable state of one `EmbeddedKnowledge` instance for a fixed
query: whether `this.table` and `this.reranker` are non-null, the ranked
row list the hybrid (full-text + vector + RRF rerank) query pipeline
would produce before `.limit` — `Except.error` when that path throws —
and the ranked row list the vector-only pipeline would produce. -/
structure StoreState where
  hasTable : Bool
  hasReranker : Bool
  hybridRanked : Except String (List LanceRow)
  vectorRanked : List LanceRow
deriving Repr

namespace EmbeddedKnowledge

/-- `EmbeddedKnowledge.vectorSearch` of knowledge.ts: empty without a
table, else the vector-ranked rows limited to `numDocuments`, scored by
`_distance`. -/
def vectorSearch (st : StoreState) (numDocuments : Nat) : List SearchResult :=
  if !st.hasTable then []
  else
    (st.vectorRanked.take numDocuments).map (fun row =>
      { name := row.name
        content := row.content
        metadata := row.metadataParsed
        score := row.distance })

/-- `EmbeddedKnowledge.search` of knowledge.ts: empty without a table or
reranker; otherwise the hybrid pipeline limited to
`numDocuments * RETRIEVAL_MULTIPLIER`, scored by `_relevance_score`;
when the hybrid path throws, the error is caught and the vector-only
fallback is returned instead. -/
def search (cfg : SearchConfig) (st : StoreState) (numDocuments : Nat) :
    List SearchResult :=
  if !(st.hasTable && st.hasReranker) then []
  else
    match st.hybridRanked with
    | Except.ok rows =>
      ((rows.take (numDocuments * cfg.RETRIEVAL_MULTIPLIER)).map (fun row =>
        { name := row.name
          content := row.content
          metadata := row.metadataParsed
          score := row.relevance_score }))
    | Except.error _ => vectorSearch st numDocuments

end EmbeddedKnowledge

/-- `formatResultsForContext` of retriever.ts: the fixed string on null or
empty input, else one numbered block per result (title or name as header,
a Source line when a source_url is present) joined by blank lines. -/
def formatResultsForContext (results : Option (List CleanedResult)) : String :=
  match results with
  | none => "No relevant documentation found."
  | some rs =>
    if rs.length = 0 then "No relevant documentation found."
    else
      String.intercalate "\n\n" (rs.enum.map (fun p =>
        let r := p.2
        let header :=
          match r.metadata.title with
          | some t => if t = "" then r.name else t
          | none => r.name
        let url := (r.metadata.source_url).getD ""
        let urlLine := if url = "" then "" else "Source: " ++ url
        "--- Document " ++ toString (p.1 + 1) ++ ": " ++ header ++ " ---\n" ++
          urlLine ++ "\n\n" ++ r.content))

/-- The JS `[...new Set(xs)]` idiom of tools.ts line 404: the list with
later duplicates removed, first occurrences kept in order. -/
def dedupFirst (seen : List String) : List String → List String
  | [] => []
  | x :: xs =>
    if seen.contains x then dedupFirst seen xs
    else x :: dedupFirst (x :: seen) xs

/-- The source collection of tools.ts lines 397-399:
`results.map(r => r.metadata?.source_url).filter(url => !!url)` — the
defined, non-empty source URLs in result order. -/
def collectSources (rs : List CleanedResult) : List String :=
  (rs.filterMap (fun r => r.metadata.source_url)).filter (fun u => !(u == ""))

/-- The object the searchKnowledge tool returns to the model, as tools.ts
builds it: a JS object whose optional fields are `Option`s. -/
structure ToolResultObj where
  success : Bool
  message : Option String := none
  suggestion : Option String := none
  documentCount : Option Nat := none
  sources : Option (List String) := none
  context : Option String := none
deriving DecidableEq, Repr

/-- What one `retriever.retrieve` call inside the tool did: returned a
value, or threw with an error message. -/
inductive RetrieveOutcome where
  | ok (results : Option (List CleanedResult))
  | threw (message : String)
deriving DecidableEq, Repr

/-- The `execute` body of `createSearchKnowledgeTool` in tools.ts, as a
function of what the wrapped `retriever.retrieve` call did: a thrown
error is caught and becomes a failure object; a null or empty result
becomes the fixed failure-with-suggestion object; otherwise the success
object carries the count, the deduplicated source URLs and the formatted
context. -/
def executeSearchKnowledge (outcome : RetrieveOutcome) : ToolResultObj :=
  match outcome with
  | RetrieveOutcome.threw msg =>
    { success := false, message := some ("Search failed: " ++ msg) }
  | RetrieveOutcome.ok results =>
    match results with
    | none =>
      { success := false
        message := some "No relevant documentation found for this query."
        suggestion :=
          some "Try rephrasing your query with different keywords or broader terms." }
    | some rs =>
      if rs.length = 0 then
        { success := false
          message := some "No relevant documentation found for this query."
          suggestion :=
            some "Try rephrasing your query with different keywords or broader terms." }
      else
        { success := true
          documentCount := some rs.length
          sources := some (dedupFirst [] (collectSources rs))
          context := some (formatResultsForContext (some rs)) }

/-- One action the language model can take at a step of the agent loop:
invoke the searchKnowledge tool, or emit its final answer text. -/
inductive ModelAction where
  | callTool (query : String) (numDocuments : Option Nat)
  | finalAnswer (text : String)

/-- Modelled from the spec: the bounded tool-calling loop that
`EmbeddedBackend.ask` delegates to `generateText` of the AI SDK with
`stopWhen: stepCountIs(SEARCH_CONFIG.MAX_STEPS)` — that loop's code is
not part of this repository, so it is embedded as the spec describes it:
a bounded loop with an explicit step budget in which the model may invoke
the tool, inspect results and either invoke again or emit a final answer.
`toolExec` runs one tool invocation; `model` gives the model's action
from the tool results so far. Returns the tool-result transcript, the
final text (empty when the budget ran out before an answer) and the
number of model generations. -/
def agentLoopGo (toolExec : String → Option Nat → ToolResultObj)
    (model : List ToolResultObj → ModelAction) :
    Nat → List ToolResultObj → List ToolResultObj × String × Nat
  | 0, transcript => (transcript, "", 0)
  | Nat.succ fuel, transcript =>
    match model transcript with
    | ModelAction.finalAnswer t => (transcript, t, 1)
    | ModelAction.callTool q nd =>
      let next := agentLoopGo toolExec model fuel (transcript ++ [toolExec q nd])
      (next.1, next.2.1, next.2.2 + 1)

/-- What one `EmbeddedBackend.ask` call produced, with the effect counts
the claims are about. -/
structure AskOutcome where
  answer : String
  modelCalls : Nat
  toolInvocations : Nat
deriving DecidableEq, Repr

/-- `EmbeddedBackend.ask` of instructions.ts (the embedded backend): when
the knowledge base has no documents, return the fixed seeding message
before any model call; otherwise run the bounded agent loop and return
its text, or the fixed fallback when that text is empty. -/
def EmbeddedBackend.ask (cfg : SearchConfig) (hasDocuments : Bool)
    (toolExec : String → Option Nat → ToolResultObj)
    (model : List ToolResultObj → ModelAction) : AskOutcome :=
  if !hasDocuments then
    { answer :=
        "The knowledge base is empty. Please run the setup command to seed documentation first."
      modelCalls := 0
      toolInvocations := 0 }
  else
    let run := agentLoopGo toolExec model cfg.MAX_STEPS []
    { answer := if run.2.1 = "" then "No response generated." else run.2.1
      modelCalls := run.2.2
      toolInvocations := run.1.length }

/-- `BACKEND_TYPES` of config/schema.ts. -/
def BACKEND_TYPES : List String := ["mintlify", "embedded", "agno"]

/-- `BackendLoadError` of registry.ts. -/
structure BackendLoadError where
  type : String
  message : String
  details : Option String := none
  suggestion : Option String := none
deriving DecidableEq, Repr

/-- `BackendLoadResult` of registry.ts; the factory function object is
modelled by its presence. -/
structure BackendLoadResult where
  success : Bool
  hasFactory : Bool
  error : Option BackendLoadError := none
deriving DecidableEq, Repr

/-- A value thrown by the dynamic `import` in registry.ts: an `Error`
instance carrying a message, or any other value carrying its
`String(error)` rendering. -/
inductive ThrownValue where
  | errorObj (message : String)
  | otherValue (display : String)
deriving DecidableEq, Repr

/-- What `await import(modulePath)` did for one load: resolved (with or
without a `backendFactory` export) or threw a value. -/
inductive ImportOutcome where
  | resolved (hasBackendFactory : Bool)
  | threw (value : ThrownValue)
deriving DecidableEq, Repr

/-- JS `String.prototype.includes` over the characters of the strings. -/
def hasInfixChars (pat : List Char) : List Char → Bool
  | [] => pat.isEmpty
  | c :: rest => pat.isPrefixOf (c :: rest) || hasInfixChars pat rest

/-- JS `message.includes(pattern)` as registry.ts uses it. -/
def jsIncludes (s pat : String) : Bool :=
  hasInfixChars pat.toList s.toList

/-- The missing-module test of registry.ts lines 164-168. -/
def isMissingModuleMsg (msg : String) : Bool :=
  jsIncludes msg "Cannot find module" || jsIncludes msg "Cannot find package" ||
    jsIncludes msg "Module not found" || jsIncludes msg "Cannot resolve"

/-- `BACKEND_SUGGESTIONS` of registry.ts. -/
def backendSuggestions (type : String) : Option String :=
  if type = "mintlify" then some "Check your internet connection"
  else if type = "embedded" then
    some "Install from source (git clone + bun install) or use --backend mintlify"
  else if type = "agno" then some "Install Python dependencies: pip install agno"
  else none

/-- `getSuggestion` of registry.ts: `BACKEND_SUGGESTIONS[type] ?? fallback`. -/
def getSuggestion (type : String) : String :=
  (backendSuggestions type).getD "Try reinstalling the package"

/-- `handleImportError` of registry.ts: a non-Error thrown value becomes a
plain import_error; an Error whose message looks like a missing module
becomes dependency_missing with a per-backend suggestion; any other Error
becomes import_error with the generic suggestion. -/
def handleImportError (type : String) (error : ThrownValue) : BackendLoadResult :=
  match error with
  | ThrownValue.otherValue s =>
    { success := false
      hasFactory := false
      error := some
        { type := "import_error"
          message := "Failed to load backend \"" ++ type ++ "\""
          details := some s } }
  | ThrownValue.errorObj msg =>
    if isMissingModuleMsg msg then
      { success := false
        hasFactory := false
        error := some
          { type := "dependency_missing"
            message := "Backend \"" ++ type ++ "\" is not available in this version"
            details := some msg
            suggestion := some (getSuggestion type) } }
    else
      { success := false
        hasFactory := false
        error := some
          { type := "import_error"
            message := "Failed to load backend \"" ++ type ++ "\""
            details := some msg
            suggestion := some "Check that all dependencies are installed" } }

/-- `loadBackend` of registry.ts: a cached type loads from the cache; an
unknown type becomes a structured not_found error with the valid-backend
suggestion; otherwise the dynamic import is attempted — a module without
the `backendFactory` export becomes an import_error, a resolved factory a
success, and a thrown value goes through `handleImportError`. The cache
is modelled by the list of cached type names, the import by its
outcome. -/
def loadBackend (cache : List String) (type : String) (imp : ImportOutcome) :
    BackendLoadResult :=
  if cache.contains type then
    { success := true, hasFactory := true }
  else if !(BACKEND_TYPES.contains type) then
    { success := false
      hasFactory := false
      error := some
        { type := "not_found"
          message := "Unknown backend type: \"" ++ type ++ "\""
          suggestion :=
            some ("Valid backends are: " ++ String.intercalate ", " BACKEND_TYPES) } }
  else
    match imp with
    | ImportOutcome.resolved hasFactory =>
      if !hasFactory then
        { success := false
          hasFactory := false
          error := some
            { type := "import_error"
              message := "Backend \"" ++ type ++ "\" missing factory export"
              details := some "Module must export 'backendFactory'" } }
      else { success := true, hasFactory := true }
    | ImportOutcome.threw v => handleImportError type v

/-- The specification-side lookup used to state the metadata-cleaning
claim: the value of key `k` in `m` when that value is a string, else
nothing. -/
def strLookup (m : Metadata) (k : String) : Option String :=
  match m.lookup k with
  | some (MVal.str s) => some s
  | some (MVal.other _ _) => none
  | none => none

/-!  Concrete data used by the claim witnesses. -/

/-- A concrete metadata object for the cleaning claim: a string
source_url, a non-string title, an internal field and an unknown field. -/
def mWitness : Metadata :=
  [("source_url", MVal.str "https://docs.example/a"),
   ("title", MVal.other true 0),
   ("chunk", MVal.str "c"),
   ("extra", MVal.str "e")]

/-- Concrete raw hits for the deduplication witness: three chunks of one
source and one of another, all scored above threshold. -/
def metaA : Metadata := [("source_url", MVal.str "https://a"), ("title", MVal.str "T")]

def metaB : Metadata := [("source_url", MVal.str "https://b")]

def rawHitsW : List SearchResult :=
  [{ name := "a1", content := "c1", metadata := metaA, score := some 1 },
   { name := "a2", content := "c2", metadata := metaA, score := some (mkRat 9 10) },
   { name := "a3", content := "c3", metadata := metaA, score := some (mkRat 8 10) },
   { name := "b1", content := "cb", metadata := metaB, score := some (mkRat 6 10) }]

/-- The output `retrieve` produces on `rawHitsW` with desiredCount 10: two
chunks of source a, one of source b. -/
def outW : List CleanedResult :=
  [{ name := "a1", content := "c1",
     metadata := { source_url := some "https://a", title := some "T" } },
   { name := "a2", content := "c2",
     metadata := { source_url := some "https://a", title := some "T" } },
   { name := "b1", content := "cb",
     metadata := { source_url := some "https://b", title := none } }]

/-- A raw hit whose score sits below the default threshold. -/
def lowHit : SearchResult :=
  { name := "x", content := "c", metadata := metaA, score := some 0 }

/-- Two ranked rows for the store-search claims. -/
def rowA : LanceRow :=
  { name := "a", content := "ca", metadataParsed := [], relevance_score := some 1,
    distance := none }

def rowB : LanceRow :=
  { name := "b", content := "cb", metadataParsed := [], relevance_score := some (mkRat 1 2),
    distance := none }

/-- A store whose hybrid pipeline ranks two rows. -/
def twoRowStore : StoreState :=
  { hasTable := true, hasReranker := true,
    hybridRanked := Except.ok [rowA, rowB], vectorRanked := [] }

/-- A vector-ranked row, and a store whose hybrid pipeline throws while
its vector pipeline ranks that one row. -/
def rowV : LanceRow :=
  { name := "v", content := "cv", metadataParsed := [], relevance_score := none,
    distance := some (mkRat 1 10) }

def hybridFailStore : StoreState :=
  { hasTable := true
    hasReranker := true
    hybridRanked := Except.error "fts index error"
    vectorRanked := [rowV] }

/-!  Lemmas about metadata cleaning. -/

theorem cleanMetadataGo_src_stable :
    ∀ (m : Metadata) (acc : CleanedMetadata), "source_url" ∉ m.map Prod.fst →
      (KnowledgeRetriever.cleanMetadataGo acc m).source_url = acc.source_url := by
  intro m
  induction m with
  | nil => intro acc _; rfl
  | cons kv rest ih =>
    intro acc h
    obtain ⟨k, v⟩ := kv
    simp only [List.map_cons, List.mem_cons, not_or] at h
    obtain ⟨hk, hrest⟩ := h
    cases v with
    | str s =>
      simp only [KnowledgeRetriever.cleanMetadataGo]
      split_ifs with h1 h2 h3
      · exact ih acc hrest
      · exact absurd h2.symm hk
      · exact ih { acc with title := some s } hrest
      · exact ih acc hrest
    | other t i =>
      simp only [KnowledgeRetriever.cleanMetadataGo]
      split_ifs with h1 h2 h3
      · exact ih acc hrest
      · exact ih acc hrest
      · exact ih acc hrest
      · exact ih acc hrest

theorem cleanMetadataGo_title_stable :
    ∀ (m : Metadata) (acc : CleanedMetadata), "title" ∉ m.map Prod.fst →
      (KnowledgeRetriever.cleanMetadataGo acc m).title = acc.title := by
  intro m
  induction m with
  | nil => intro acc _; rfl
  | cons kv rest ih =>
    intro acc h
    obtain ⟨k, v⟩ := kv
    simp only [List.map_cons, List.mem_cons, not_or] at h
    obtain ⟨hk, hrest⟩ := h
    cases v with
    | str s =>
      simp only [KnowledgeRetriever.cleanMetadataGo]
      split_ifs with h1 h2 h3
      · exact ih acc hrest
      · exact ih { acc with source_url := some s } hrest
      · exact absurd h3.symm hk
      · exact ih acc hrest
    | other t i =>
      simp only [KnowledgeRetriever.cleanMetadataGo]
      split_ifs with h1 h2 h3
      · exact ih acc hrest
      · exact ih acc hrest
      · exact ih acc hrest
      · exact ih acc hrest

theorem cleanMetadataGo_src_eq :
    ∀ (m : Metadata) (acc : CleanedMetadata), (m.map Prod.fst).Nodup →
      (KnowledgeRetriever.cleanMetadataGo acc m).source_url =
        (match strLookup m "source_url" with
         | some s => some s
         | none => acc.source_url) := by
  intro m
  induction m with
  | nil => intro acc _; simp [KnowledgeRetriever.cleanMetadataGo, strLookup]
  | cons kv rest ih =>
    intro acc hnd
    obtain ⟨k, v⟩ := kv
    simp only [List.map_cons, List.nodup_cons] at hnd
    obtain ⟨hk, hrest⟩ := hnd
    by_cases hsrc : k = "source_url"
    · subst hsrc
      have hint : ¬("source_url" = "chunk" ∨ "source_url" = "chunk_size" ∨
          "source_url" = "path") := by decide
      cases v with
      | str s =>
        simp only [KnowledgeRetriever.cleanMetadataGo]
        rw [if_neg hint, if_pos trivial]
        rw [cleanMetadataGo_src_stable rest _ hk]
        simp [strLookup, List.lookup]
      | other t i =>
        simp only [KnowledgeRetriever.cleanMetadataGo]
        rw [if_neg hint, if_pos trivial]
        rw [cleanMetadataGo_src_stable rest _ hk]
        simp [strLookup, List.lookup]
    · have hbe : ("source_url" == k) = false :=
        beq_eq_false_iff_ne.mpr (fun h => hsrc h.symm)
      have hlk : strLookup ((k, v) :: rest) "source_url" = strLookup rest "source_url" := by
        simp [strLookup, List.lookup, hbe]
      rw [hlk]
      simp only [KnowledgeRetriever.cleanMetadataGo]
      by_cases h1 : (k = "chunk" ∨ k = "chunk_size" ∨ k = "path")
      · rw [if_pos h1]
        exact ih acc hrest
      · rw [if_neg h1, if_neg hsrc]
        by_cases h3 : k = "title"
        · rw [if_pos h3]
          cases v with
          | str s => simpa using ih { acc with title := some s } hrest
          | other t i => exact ih acc hrest
        · rw [if_neg h3]
          cases v with
          | str s => exact ih acc hrest
          | other t i => exact ih acc hrest

theorem cleanMetadataGo_title_eq :
    ∀ (m : Metadata) (acc : CleanedMetadata), (m.map Prod.fst).Nodup →
      (KnowledgeRetriever.cleanMetadataGo acc m).title =
        (match strLookup m "title" with
         | some s => some s
         | none => acc.title) := by
  intro m
  induction m with
  | nil => intro acc _; simp [KnowledgeRetriever.cleanMetadataGo, strLookup]
  | cons kv rest ih =>
    intro acc hnd
    obtain ⟨k, v⟩ := kv
    simp only [List.map_cons, List.nodup_cons] at hnd
    obtain ⟨hk, hrest⟩ := hnd
    by_cases htit : k = "title"
    · subst htit
      have hint : ¬("title" = "chunk" ∨ "title" = "chunk_size" ∨
          "title" = "path") := by decide
      cases v with
      | str s =>
        simp only [KnowledgeRetriever.cleanMetadataGo]
        rw [if_neg hint, if_neg (by decide : ¬("title" = "source_url")), if_pos trivial]
        rw [cleanMetadataGo_title_stable rest _ hk]
        simp [strLookup, List.lookup]
      | other t i =>
        simp only [KnowledgeRetriever.cleanMetadataGo]
        rw [if_neg hint, if_neg (by decide : ¬("title" = "source_url")), if_pos trivial]
        rw [cleanMetadataGo_title_stable rest _ hk]
        simp [strLookup, List.lookup]
    · have hbe : ("title" == k) = false :=
        beq_eq_false_iff_ne.mpr (fun h => htit h.symm)
      have hlk : strLookup ((k, v) :: rest) "title" = strLookup rest "title" := by
        simp [strLookup, List.lookup, hbe]
      rw [hlk]
      simp only [KnowledgeRetriever.cleanMetadataGo]
      by_cases h1 : (k = "chunk" ∨ k = "chunk_size" ∨ k = "path")
      · rw [if_pos h1]
        exact ih acc hrest
      · rw [if_neg h1]
        by_cases h2 : k = "source_url"
        · rw [if_pos h2]
          cases v with
          | str s => simpa using ih { acc with source_url := some s } hrest
          | other t i => exact ih acc hrest
        · rw [if_neg h2, if_neg htit]
          cases v with
          | str s => exact ih acc hrest
          | other t i => exact ih acc hrest

theorem cleanMetadata_source_url (m : Metadata) (h : (m.map Prod.fst).Nodup) :
    (KnowledgeRetriever.cleanMetadata m).source_url = strLookup m "source_url" := by
  have hgo := cleanMetadataGo_src_eq m {} h
  cases hl : strLookup m "source_url" <;>
    simp only [hl] at hgo <;> simpa [KnowledgeRetriever.cleanMetadata] using hgo

theorem cleanMetadata_title (m : Metadata) (h : (m.map Prod.fst).Nodup) :
    (KnowledgeRetriever.cleanMetadata m).title = strLookup m "title" := by
  have hgo := cleanMetadataGo_title_eq m {} h
  cases hl : strLookup m "title" <;>
    simp only [hl] at hgo <;> simpa [KnowledgeRetriever.cleanMetadata] using hgo

/-- C10: for every search result, the cleaned metadata produced by the
retriever holds exactly the string-valued `source_url` and `title` entries
of the input metadata — each field is present only when the corresponding
input value is a string, and every other metadata field is dropped (the
`CleanedMetadata` record has no other field). Metadata keys are assumed
unique, as the keys of one parsed JSON object are. -/
theorem cleanMetadata_only_declared_strings (m : Metadata)
    (h : (m.map Prod.fst).Nodup) :
    KnowledgeRetriever.cleanMetadata m =
      { source_url := strLookup m "source_url", title := strLookup m "title" } := by
  have h1 := cleanMetadata_source_url m h
  have h2 := cleanMetadata_title m h
  cases hcm : KnowledgeRetriever.cleanMetadata m with
  | mk su ti =>
    rw [hcm] at h1 h2
    simp only [CleanedMetadata.mk.injEq]
    exact ⟨h1, h2⟩


/-- Witness for C10 at `mWitness`: the hypotheses hold and the cleaned
metadata keeps the string source_url, drops the non-string title and
everything else. -/
theorem cleanMetadata_only_declared_strings_witness :
    (mWitness.map Prod.fst).Nodup ∧
      KnowledgeRetriever.cleanMetadata mWitness =
        { source_url := strLookup mWitness "source_url"
          title := strLookup mWitness "title" } :=
  ⟨by decide, cleanMetadata_only_declared_strings mWitness (by decide)⟩

/-!  The deduplication key, seen from the raw result and from its cleaned
image. -/

theorem sourceKeyOf_eq_cleaned (r : SearchResult) (hg : goodResult r) :
    KnowledgeRetriever.sourceKeyOf r.name r.metadata =
      MVal.str (CleanedResult.sourceKey
        { name := r.name, content := r.content,
          metadata := KnowledgeRetriever.cleanMetadata r.metadata }) := by
  obtain ⟨hnd, hok⟩ := hg
  have hsu := cleanMetadata_source_url r.metadata hnd
  unfold KnowledgeRetriever.sourceKeyOf CleanedResult.sourceKey
  cases hl : r.metadata.lookup "source_url" with
  | none =>
    have : strLookup r.metadata "source_url" = none := by simp [strLookup, hl]
    simp [hsu, this]
  | some v =>
    cases v with
    | str s =>
      have : strLookup r.metadata "source_url" = some s := by simp [strLookup, hl]
      rw [hsu, this]
      by_cases hs : s = ""
      · subst hs; simp [MVal.isTruthy]
      · simp [MVal.isTruthy, hs]
    | other t i =>
      exfalso
      simp [srcUrlOk, hl] at hok

/-!  The per-key cap and the length cap of the deduplication loop. -/

theorem dedupGo_count_le (cfg : SearchConfig) (n : Nat) (κ : MVal) :
    ∀ (rs : List SearchResult) (seen : MVal → Nat) (accLen : Nat),
      (∀ r ∈ rs, goodResult r) →
      ((KnowledgeRetriever.dedupGo cfg n rs seen accLen).map
          (fun o => MVal.str o.sourceKey)).count κ + seen κ ≤
        max (seen κ) cfg.MAX_CHUNKS_PER_URL := by
  intro rs
  induction rs with
  | nil =>
    intro seen accLen _
    simp [KnowledgeRetriever.dedupGo]
  | cons r rest ih =>
    intro seen accLen hgood
    have hr := hgood r (List.mem_cons_self r rest)
    have hrest : ∀ x ∈ rest, goodResult x :=
      fun x hx => hgood x (List.mem_cons_of_mem r hx)
    simp only [KnowledgeRetriever.dedupGo]
    by_cases hbrk : n ≤ accLen
    · simp [hbrk]
    · rw [if_neg hbrk]
      by_cases hskip :
          cfg.MAX_CHUNKS_PER_URL ≤ seen (KnowledgeRetriever.sourceKeyOf r.name r.metadata)
      · rw [if_pos hskip]
        exact ih seen accLen hrest
      · rw [if_neg hskip]
        have hbr := sourceKeyOf_eq_cleaned r hr
        simp only [List.map_cons, List.count_cons, ← hbr]
        have hIH := ih
          (fun k => if k = KnowledgeRetriever.sourceKeyOf r.name r.metadata then
            seen (KnowledgeRetriever.sourceKeyOf r.name r.metadata) + 1 else seen k)
          (accLen + 1) hrest
        simp only [] at hIH
        by_cases hκ : κ = KnowledgeRetriever.sourceKeyOf r.name r.metadata
        · rw [hκ] at hIH ⊢
          simp only [eq_self_iff_true, if_true] at hIH
          simp only [beq_self_eq_true, eq_self_iff_true, if_true]
          omega
        · have hbeq : (KnowledgeRetriever.sourceKeyOf r.name r.metadata == κ) = false :=
            beq_eq_false_iff_ne.mpr (fun h => hκ h.symm)
          rw [if_neg hκ] at hIH
          simp only [hbeq, Bool.false_eq_true, if_false]
          omega

theorem dedupGo_length_le (cfg : SearchConfig) (n : Nat) :
    ∀ (rs : List SearchResult) (seen : MVal → Nat) (accLen : Nat),
      (KnowledgeRetriever.dedupGo cfg n rs seen accLen).length + accLen ≤
        max accLen n := by
  intro rs
  induction rs with
  | nil =>
    intro seen accLen
    simp [KnowledgeRetriever.dedupGo]
  | cons r rest ih =>
    intro seen accLen
    simp only [KnowledgeRetriever.dedupGo]
    by_cases hbrk : n ≤ accLen
    · simp [hbrk]
    · rw [if_neg hbrk]
      by_cases hskip :
          cfg.MAX_CHUNKS_PER_URL ≤ seen (KnowledgeRetriever.sourceKeyOf r.name r.metadata)
      · rw [if_pos hskip]
        exact le_trans (ih seen accLen) (le_refl _)
      · rw [if_neg hskip]
        have hIH := ih
          (fun k => if k = KnowledgeRetriever.sourceKeyOf r.name r.metadata then
            seen (KnowledgeRetriever.sourceKeyOf r.name r.metadata) + 1 else seen k)
          (accLen + 1)
        simp only [List.length_cons]
        omega

theorem deduplicateAndClean_count_le (cfg : SearchConfig)
    (rs : List SearchResult) (n : Nat) (k : String)
    (h : ∀ r ∈ rs, goodResult r) :
    ((KnowledgeRetriever.deduplicateAndClean cfg rs n).map
        CleanedResult.sourceKey).count k ≤ cfg.MAX_CHUNKS_PER_URL := by
  have hcount := dedupGo_count_le cfg n (MVal.str k) rs (fun _ => 0) 0 h
  simp only [Nat.add_zero, Nat.zero_max] at hcount
  unfold KnowledgeRetriever.deduplicateAndClean
  have hmap :
      ((KnowledgeRetriever.dedupGo cfg n rs (fun _ => 0) 0).map
        (fun o => MVal.str o.sourceKey)) =
      ((KnowledgeRetriever.dedupGo cfg n rs (fun _ => 0) 0).map
        CleanedResult.sourceKey).map MVal.str := by
    simp [List.map_map, Function.comp]
  rw [hmap] at hcount
  have hinj : Function.Injective MVal.str := fun a b hab => by
    cases hab; rfl
  rw [List.count_map_of_injective _ MVal.str hinj k] at hcount
  exact hcount

theorem deduplicateAndClean_length_le (cfg : SearchConfig)
    (rs : List SearchResult) (n : Nat) :
    (KnowledgeRetriever.deduplicateAndClean cfg rs n).length ≤ n := by
  have := dedupGo_length_le cfg n rs (fun _ => 0) 0
  simp only [Nat.add_zero, Nat.zero_max] at this
  exact this

theorem filterByScore_sublist (cfg : SearchConfig) (rs : List SearchResult) :
    (KnowledgeRetriever.filterByScore cfg rs).Sublist rs := by
  unfold KnowledgeRetriever.filterByScore
  by_cases h : rs.any (fun r => r.score.isSome)
  · simp only [h]
    exact List.filter_sublist rs
  · simp only [h]
    exact List.Sublist.refl rs

/-- C1: for every ranked list of raw hits the store returns and every
desired count, a non-null `retrieve` output contains at most
`MAX_CHUNKS_PER_URL` results per source key (the cleaned source_url when
present and truthy, else the document name) and at most `desiredCount`
results in total. Raw metadata is assumed well-typed (`goodResult`): keys
unique and `source_url`, when present, a string, as `DocumentMetadata`
declares. -/
theorem retrieve_per_source_cap (cfg : SearchConfig)
    (searchFn : Nat → List SearchResult) (numDocuments : Nat)
    (out : List CleanedResult)
    (hgood : ∀ r ∈ searchFn (numDocuments * cfg.RETRIEVAL_MULTIPLIER), goodResult r)
    (hout : KnowledgeRetriever.retrieve cfg searchFn numDocuments = some out) :
    (∀ k : String,
        (out.map CleanedResult.sourceKey).count k ≤ cfg.MAX_CHUNKS_PER_URL) ∧
      out.length ≤ numDocuments := by
  simp only [KnowledgeRetriever.retrieve] at hout
  by_cases hlen : (searchFn (numDocuments * cfg.RETRIEVAL_MULTIPLIER)).length = 0
  · rw [if_pos hlen] at hout
    exact Option.noConfusion hout
  · rw [if_neg hlen] at hout
    by_cases hfil :
        (KnowledgeRetriever.filterByScore cfg
          (searchFn (numDocuments * cfg.RETRIEVAL_MULTIPLIER))).length = 0
    · rw [if_pos hfil] at hout
      have hO := Option.some.inj hout
      subst hO
      refine ⟨fun k => ?_, ?_⟩
      · refine deduplicateAndClean_count_le cfg _ _ k (fun r hr => ?_)
        exact hgood r ((List.take_sublist _ _).subset hr)
      · exact deduplicateAndClean_length_le cfg _ _
    · rw [if_neg hfil] at hout
      have hO := Option.some.inj hout
      subst hO
      refine ⟨fun k => ?_, ?_⟩
      · refine deduplicateAndClean_count_le cfg _ _ k (fun r hr => ?_)
        exact hgood r ((filterByScore_sublist cfg _).subset hr)
      · exact deduplicateAndClean_length_le cfg _ _


/-- Witness for C1 on `rawHitsW`: the hypotheses hold and the output obeys
both caps. -/
theorem retrieve_per_source_cap_witness :
    (∀ r ∈ (fun _ : Nat => rawHitsW) (10 * SEARCH_CONFIG.RETRIEVAL_MULTIPLIER),
        goodResult r) ∧
    KnowledgeRetriever.retrieve SEARCH_CONFIG (fun _ => rawHitsW) 10 = some outW ∧
    ((∀ k : String,
        (outW.map CleanedResult.sourceKey).count k ≤ SEARCH_CONFIG.MAX_CHUNKS_PER_URL) ∧
      outW.length ≤ 10) :=
  ⟨by decide, by decide,
    retrieve_per_source_cap SEARCH_CONFIG (fun _ => rawHitsW) 10 outW
      (by decide) (by decide)⟩

/-- C2: `retrieve` returns null exactly when the store's search returned
zero raw hits; a non-empty raw list — even one emptied by score
filtering — always yields a (possibly empty) result list, never null. -/
theorem retrieve_none_iff_search_empty (cfg : SearchConfig)
    (searchFn : Nat → List SearchResult) (numDocuments : Nat) :
    KnowledgeRetriever.retrieve cfg searchFn numDocuments = none ↔
      searchFn (numDocuments * cfg.RETRIEVAL_MULTIPLIER) = [] := by
  simp only [KnowledgeRetriever.retrieve]
  by_cases hlen : (searchFn (numDocuments * cfg.RETRIEVAL_MULTIPLIER)).length = 0
  · rw [if_pos hlen]
    simp [List.length_eq_zero.mp hlen]
  · rw [if_neg hlen]
    constructor
    · intro h
      by_cases hfil :
          (KnowledgeRetriever.filterByScore cfg
            (searchFn (numDocuments * cfg.RETRIEVAL_MULTIPLIER))).length = 0
      · rw [if_pos hfil] at h
        exact Option.noConfusion h
      · rw [if_neg hfil] at h
        exact Option.noConfusion h
    · intro h
      exact absurd (by simp [h]) hlen

/-- All-low raw hits make the score filter empty. -/
theorem filterByScore_eq_nil_of_all_low (cfg : SearchConfig)
    (rs : List SearchResult) (hne : rs ≠ [])
    (hlow : ∀ r ∈ rs, ∃ s, r.score = some s ∧ s < cfg.MIN_SCORE) :
    KnowledgeRetriever.filterByScore cfg rs = [] := by
  unfold KnowledgeRetriever.filterByScore
  have hany : rs.any (fun r => r.score.isSome) = true := by
    obtain ⟨r0, hr0⟩ := List.exists_mem_of_ne_nil rs hne
    obtain ⟨s0, hs0, _⟩ := hlow r0 hr0
    exact List.any_eq_true.mpr ⟨r0, hr0, by simp [hs0]⟩
  simp only [hany, Bool.not_true, Bool.false_eq_true, if_false]
  refine List.filter_eq_nil_iff.mpr (fun r hr => ?_)
  obtain ⟨s, hs, hlt⟩ := hlow r hr
  simp [hs, not_le.mpr hlt]

/-- C3: when the store returns a non-empty raw list in which every hit
carries a score below `MIN_SCORE`, `retrieve` does not return null: it
falls back to the best `desiredCount` unfiltered hits (the head of the
ranked list) and returns at most `desiredCount` results. -/
theorem retrieve_fallback_when_all_low (cfg : SearchConfig)
    (searchFn : Nat → List SearchResult) (numDocuments : Nat)
    (hne : searchFn (numDocuments * cfg.RETRIEVAL_MULTIPLIER) ≠ [])
    (hlow : ∀ r ∈ searchFn (numDocuments * cfg.RETRIEVAL_MULTIPLIER),
      ∃ s, r.score = some s ∧ s < cfg.MIN_SCORE) :
    KnowledgeRetriever.retrieve cfg searchFn numDocuments =
      some (KnowledgeRetriever.deduplicateAndClean cfg
        ((searchFn (numDocuments * cfg.RETRIEVAL_MULTIPLIER)).take numDocuments)
        numDocuments) ∧
    (KnowledgeRetriever.deduplicateAndClean cfg
        ((searchFn (numDocuments * cfg.RETRIEVAL_MULTIPLIER)).take numDocuments)
        numDocuments).length ≤ numDocuments := by
  have hfil := filterByScore_eq_nil_of_all_low cfg
    (searchFn (numDocuments * cfg.RETRIEVAL_MULTIPLIER)) hne hlow
  constructor
  · simp only [KnowledgeRetriever.retrieve]
    rw [if_neg (fun h => hne (List.length_eq_zero.mp h))]
    rw [if_pos (by simp [hfil])]
  · exact deduplicateAndClean_length_le cfg _ _


/-- Witness for C3 on a store returning only `lowHit`: the hypotheses hold
and retrieve falls back to the unfiltered head. -/
theorem retrieve_fallback_when_all_low_witness :
    ((fun _ : Nat => [lowHit]) (3 * SEARCH_CONFIG.RETRIEVAL_MULTIPLIER) ≠ []) ∧
    (∀ r ∈ (fun _ : Nat => [lowHit]) (3 * SEARCH_CONFIG.RETRIEVAL_MULTIPLIER),
      ∃ s, r.score = some s ∧ s < SEARCH_CONFIG.MIN_SCORE) ∧
    (KnowledgeRetriever.retrieve SEARCH_CONFIG (fun _ => [lowHit]) 3 =
      some (KnowledgeRetriever.deduplicateAndClean SEARCH_CONFIG
        (((fun _ : Nat => [lowHit]) (3 * SEARCH_CONFIG.RETRIEVAL_MULTIPLIER)).take 3) 3) ∧
    (KnowledgeRetriever.deduplicateAndClean SEARCH_CONFIG
        (((fun _ : Nat => [lowHit]) (3 * SEARCH_CONFIG.RETRIEVAL_MULTIPLIER)).take 3)
        3).length ≤ 3) :=
  ⟨by decide,
   by
     intro r hr
     simp only [List.mem_singleton] at hr
     subst hr
     exact ⟨0, rfl, by decide⟩,
   retrieve_fallback_when_all_low SEARCH_CONFIG (fun _ => [lowHit]) 3 (by decide)
     (by
       intro r hr
       simp only [List.mem_singleton] at hr
       subst hr
       exact ⟨0, rfl, by decide⟩)⟩

/-- C4 auxiliary: the agent loop can grow the transcript by at most its
step budget. -/
theorem agentLoopGo_transcript_le (toolExec : String → Option Nat → ToolResultObj)
    (model : List ToolResultObj → ModelAction) :
    ∀ (fuel : Nat) (transcript : List ToolResultObj),
      (agentLoopGo toolExec model fuel transcript).1.length ≤
        transcript.length + fuel := by
  intro fuel
  induction fuel with
  | zero => intro tr; simp [agentLoopGo]
  | succ n ih =>
    intro tr
    simp only [agentLoopGo]
    cases model tr with
    | finalAnswer t => simp
    | callTool q nd =>
      show (agentLoopGo toolExec model n (tr ++ [toolExec q nd])).1.length ≤
        tr.length + (n + 1)
      have := ih (tr ++ [toolExec q nd])
      simp only [List.length_append, List.length_cons, List.length_nil] at this
      omega

/-- C4: one `ask` call of the embedded backend never performs more than
`MAX_STEPS` tool invocations, whatever the model does. -/
theorem ask_tool_invocations_le_max_steps (cfg : SearchConfig)
    (hasDocuments : Bool) (toolExec : String → Option Nat → ToolResultObj)
    (model : List ToolResultObj → ModelAction) :
    (EmbeddedBackend.ask cfg hasDocuments toolExec model).toolInvocations ≤
      cfg.MAX_STEPS := by
  unfold EmbeddedBackend.ask
  cases hasDocuments with
  | false => simp
  | true =>
    simp only [Bool.not_true, Bool.false_eq_true, if_false]
    have := agentLoopGo_transcript_le toolExec model cfg.MAX_STEPS []
    simpa using this

/-- C5: with an empty knowledge base, `ask` returns the fixed seeding
message and performs no model call and no tool invocation. -/
theorem ask_empty_store_seed_message (cfg : SearchConfig) (hasDocuments : Bool)
    (toolExec : String → Option Nat → ToolResultObj)
    (model : List ToolResultObj → ModelAction)
    (h : hasDocuments = false) :
    EmbeddedBackend.ask cfg hasDocuments toolExec model =
      { answer :=
          "The knowledge base is empty. Please run the setup command to seed documentation first."
        modelCalls := 0
        toolInvocations := 0 } := by
  subst h
  rfl

/-- Witness for C5 at a concrete model and tool. -/
theorem ask_empty_store_seed_message_witness :
    EmbeddedBackend.ask SEARCH_CONFIG false
        (fun _ _ => { success := false })
        (fun _ => ModelAction.finalAnswer "hi") =
      { answer :=
          "The knowledge base is empty. Please run the setup command to seed documentation first."
        modelCalls := 0
        toolInvocations := 0 } :=
  ask_empty_store_seed_message SEARCH_CONFIG false
    (fun _ _ => { success := false })
    (fun _ => ModelAction.finalAnswer "hi") rfl


/-- Counterexample to C6 as stated: with the default config,
`search(query, 1)` on a two-row store returns 2 results — strictly more
than the `limit` argument 1 — because the store applies
`.limit(limit * RETRIEVAL_MULTIPLIER)` internally. -/
theorem search_limit_exceeded_counterexample :
    (EmbeddedKnowledge.search SEARCH_CONFIG twoRowStore 1).length = 2 ∧
      1 < (EmbeddedKnowledge.search SEARCH_CONFIG twoRowStore 1).length := by
  decide

/-- C6 amended: `search(query, limit)` returns at most
`limit * RETRIEVAL_MULTIPLIER` results. The multiplier-at-least-1
hypothesis is what makes the vector-fallback branch, which takes at most
`limit` rows, fit under the same bound. -/
theorem search_length_le_limit_mul (cfg : SearchConfig) (st : StoreState)
    (numDocuments : Nat) (hmul : 1 ≤ cfg.RETRIEVAL_MULTIPLIER) :
    (EmbeddedKnowledge.search cfg st numDocuments).length ≤
      numDocuments * cfg.RETRIEVAL_MULTIPLIER := by
  unfold EmbeddedKnowledge.search EmbeddedKnowledge.vectorSearch
  by_cases hT : (st.hasTable && st.hasReranker) = true
  · rw [hT]
    simp only [Bool.not_true, Bool.false_eq_true, if_false]
    cases hH : st.hybridRanked with
    | ok rows =>
      simp only [List.length_map, List.length_take]
      omega
    | error e =>
      by_cases hTab : st.hasTable = true
      · simp only [hTab, Bool.not_true, Bool.false_eq_true, if_false,
          List.length_map, List.length_take]
        have : numDocuments * 1 ≤ numDocuments * cfg.RETRIEVAL_MULTIPLIER :=
          Nat.mul_le_mul_left numDocuments hmul
        omega
      · simp [hTab]
  · simp only [Bool.not_eq_true] at hT
    rw [hT]
    simp

/-- Witness for the amended C6 on the two-row store. -/
theorem search_length_le_limit_mul_witness :
    1 ≤ SEARCH_CONFIG.RETRIEVAL_MULTIPLIER ∧
      (EmbeddedKnowledge.search SEARCH_CONFIG twoRowStore 1).length ≤
        1 * SEARCH_CONFIG.RETRIEVAL_MULTIPLIER :=
  ⟨by decide, search_length_le_limit_mul SEARCH_CONFIG twoRowStore 1 (by decide)⟩

/-- C7: when the hybrid (fused) search path raises, `search` does not
propagate the error: it returns exactly the vector-only search over the
same query. (With `hasReranker` false the hybrid path is never attempted,
so the premise names the state in which it can raise.) -/
theorem search_falls_back_on_hybrid_error (cfg : SearchConfig) (st : StoreState)
    (numDocuments : Nat) (e : String)
    (hR : st.hasReranker = true) (hH : st.hybridRanked = Except.error e) :
    EmbeddedKnowledge.search cfg st numDocuments =
      EmbeddedKnowledge.vectorSearch st numDocuments := by
  unfold EmbeddedKnowledge.search
  by_cases hT : st.hasTable = true
  · simp [hT, hR, hH]
  · simp only [Bool.not_eq_true] at hT
    simp [EmbeddedKnowledge.vectorSearch, hT, hR]

/-- Witness for C7 on `hybridFailStore`. -/
theorem search_falls_back_on_hybrid_error_witness :
    hybridFailStore.hasReranker = true ∧
    hybridFailStore.hybridRanked = Except.error "fts index error" ∧
    EmbeddedKnowledge.search SEARCH_CONFIG hybridFailStore 5 =
      EmbeddedKnowledge.vectorSearch hybridFailStore 5 :=
  ⟨rfl, rfl,
    search_falls_back_on_hybrid_error SEARCH_CONFIG hybridFailStore 5
      "fts index error" rfl rfl⟩

/-- C8: whatever the wrapped retriever call does — returns results,
returns null, or throws — the searchKnowledge tool's execute returns a
well-formed object: on success it carries documentCount, sources and
context; on failure it carries a message. Being a total function of the
outcome, it never propagates an exception to the agent loop. -/
theorem executeSearchKnowledge_wellformed (outcome : RetrieveOutcome) :
    ((executeSearchKnowledge outcome).success = true →
      (executeSearchKnowledge outcome).documentCount.isSome = true ∧
      (executeSearchKnowledge outcome).sources.isSome = true ∧
      (executeSearchKnowledge outcome).context.isSome = true) ∧
    ((executeSearchKnowledge outcome).success = false →
      (executeSearchKnowledge outcome).message.isSome = true) := by
  cases outcome with
  | threw msg => simp [executeSearchKnowledge]
  | ok results =>
    cases results with
    | none => simp [executeSearchKnowledge]
    | some rs =>
      by_cases h : rs.length = 0 <;> simp [executeSearchKnowledge, h]

/-- C9: `loadBackend` never throws (it is a total function of the cache,
the requested type and the import outcome). For a type outside the known
set it returns the structured not_found error with its remediation
suggestion; for a known, uncached type whose import throws an `Error`, it
returns a structured diagnostic whose error type distinguishes
dependency_missing (missing-module messages) from import_error, always
with a suggestion. The cache only ever holds known types (it is filled
after the membership check), stated here as a hypothesis. -/
theorem loadBackend_structured_errors (cache : List String) (type : String)
    (imp : ImportOutcome) (hcache : ∀ t ∈ cache, t ∈ BACKEND_TYPES) :
    (type ∉ BACKEND_TYPES →
      loadBackend cache type imp =
        { success := false
          hasFactory := false
          error := some
            { type := "not_found"
              message := "Unknown backend type: \"" ++ type ++ "\""
              suggestion :=
                some ("Valid backends are: " ++
                  String.intercalate ", " BACKEND_TYPES) } }) ∧
    (∀ msg, type ∈ BACKEND_TYPES → type ∉ cache →
      imp = ImportOutcome.threw (ThrownValue.errorObj msg) →
      ∃ e, loadBackend cache type imp =
          { success := false, hasFactory := false, error := some e } ∧
        e.type =
          (if isMissingModuleMsg msg then "dependency_missing" else "import_error") ∧
        e.suggestion.isSome = true) := by
  constructor
  · intro hmem
    have hc : cache.contains type = false := by
      by_contra hcon
      simp only [Bool.not_eq_false] at hcon
      exact hmem (hcache type (List.mem_of_elem_eq_true hcon))
    have hb : BACKEND_TYPES.contains type = false := by
      by_contra hcon
      simp only [Bool.not_eq_false] at hcon
      exact hmem (List.mem_of_elem_eq_true hcon)
    unfold loadBackend
    rw [hc, hb]
    simp
  · intro msg hmem hnc himp
    subst himp
    have hc : cache.contains type = false := by
      by_contra hcon
      simp only [Bool.not_eq_false] at hcon
      exact hnc (List.mem_of_elem_eq_true hcon)
    have hb : BACKEND_TYPES.contains type = true := List.elem_eq_true_of_mem hmem
    unfold loadBackend
    rw [hc, hb]
    simp only [Bool.false_eq_true, if_false, Bool.not_true, if_true]
    by_cases hmm : isMissingModuleMsg msg = true
    · exact
        ⟨{ type := "dependency_missing"
           message := "Backend \"" ++ type ++ "\" is not available in this version"
           details := some msg
           suggestion := some (getSuggestion type) },
          by simp only [handleImportError, hmm, if_true],
          by simp [hmm],
          by simp⟩
    · simp only [Bool.not_eq_true] at hmm
      exact
        ⟨{ type := "import_error"
           message := "Failed to load backend \"" ++ type ++ "\""
           details := some msg
           suggestion := some "Check that all dependencies are installed" },
          by simp only [handleImportError, hmm, Bool.false_eq_true, if_false],
          by simp [hmm],
          by simp⟩

/-- Witness for C9: the embedded backend, uncached, failing to import with
a missing-module error, yields a dependency_missing diagnostic with a
suggestion. -/
theorem loadBackend_structured_errors_witness :
    (∀ t ∈ ([] : List String), t ∈ BACKEND_TYPES) ∧
    (("embedded" ∉ BACKEND_TYPES →
      loadBackend [] "embedded"
          (ImportOutcome.threw (ThrownValue.errorObj "Cannot find package @lancedb/lancedb")) =
        { success := false
          hasFactory := false
          error := some
            { type := "not_found"
              message := "Unknown backend type: \"" ++ "embedded" ++ "\""
              suggestion :=
                some ("Valid backends are: " ++
                  String.intercalate ", " BACKEND_TYPES) } }) ∧
    (∀ msg, "embedded" ∈ BACKEND_TYPES → "embedded" ∉ ([] : List String) →
      ImportOutcome.threw (ThrownValue.errorObj "Cannot find package @lancedb/lancedb") =
        ImportOutcome.threw (ThrownValue.errorObj msg) →
      ∃ e, loadBackend [] "embedded"
          (ImportOutcome.threw (ThrownValue.errorObj "Cannot find package @lancedb/lancedb")) =
          { success := false, hasFactory := false, error := some e } ∧
        e.type =
          (if isMissingModuleMsg msg then "dependency_missing" else "import_error") ∧
        e.suggestion.isSome = true)) :=
  ⟨by decide,
    loadBackend_structured_errors [] "embedded"
      (ImportOutcome.threw (ThrownValue.errorObj "Cannot find package @lancedb/lancedb"))
      (by decide)⟩
